import Mathlib

/-!
Shallow embedding of the `vec2` 2D vector library (src/vec2.js), over exact
real arithmetic.  JavaScript numbers are modelled by `ℝ`; methods that mutate
`this` and return it are modelled as functions returning the updated value.
`Math.sqrt`, `Math.sin`, `Math.cos`, `Math.pow`, `Math.acos`, `Math.atan2`
are modelled by `Real.sqrt`, `Real.sin`, `Real.cos`, `Real.rpow`,
`Real.arccos`, `Complex.arg` respectively.  Where IEEE NaN behaviour is
observable (the static `angle` query), the result type is `Option ℝ` with
`none` standing for NaN.
-/

/-- The vector value: the two numeric fields `x`, `y` of the `vec2` class. -/
@[ext]
structure vec2 where
  x : ℝ
  y : ℝ

namespace vec2

/-- `set(x, y)` — overwrites both components, returns this. -/
def set (_v : vec2) (x y : ℝ) : vec2 := ⟨x, y⟩

/-- `translate(x, y)` — `this.x += x; this.y += y`. -/
def translate (v : vec2) (dx dy : ℝ) : vec2 := ⟨v.x + dx, v.y + dy⟩

/-- `magSq()` — `this.x * this.x + this.y * this.y`. -/
def magSq (v : vec2) : ℝ := v.x * v.x + v.y * v.y

/-- `mag()` — `Math.sqrt(this.magSq())`. -/
noncomputable def mag (v : vec2) : ℝ := Real.sqrt (magSq v)

/-- `scale(val)` — `this.x *= val; this.y *= val`. -/
def scale (v : vec2) (val : ℝ) : vec2 := ⟨v.x * val, v.y * val⟩

/-- `normalize()` — `let m = this.mag(); if (m == 0) return this; return this.scale(1 / m)`. -/
noncomputable def normalize (v : vec2) : vec2 :=
  if mag v = 0 then v else scale v (1 / mag v)

/-- `copy({x, y})` — `this.set(x, y)`. -/
def copy (v : vec2) (w : vec2) : vec2 := set v w.x w.y

/-- `clone()` — `new vec2(this.x, this.y)`. -/
def clone (v : vec2) : vec2 := ⟨v.x, v.y⟩

/-- `sub({x, y})` — `this.translate(-x, -y)`. -/
def sub (v : vec2) (w : vec2) : vec2 := translate v (-w.x) (-w.y)

/-- `add({x, y})` — `this.translate(x, y)`. -/
def add (v : vec2) (w : vec2) : vec2 := translate v w.x w.y

/-- `dot({x, y})` — `this.x * x + this.y * y`. -/
def dot (v : vec2) (w : vec2) : ℝ := v.x * w.x + v.y * w.y

/-- `cross({x, y})` — `this.x * y - x * this.y`. -/
def cross (v : vec2) (w : vec2) : ℝ := v.x * w.y - w.x * v.y

/-- `setMag(mag)` — `this.normalize().scale(mag)`. -/
noncomputable def setMag (v : vec2) (m : ℝ) : vec2 := scale (normalize v) m

/-- `setDirection(dir)` — `let mag = this.dot(dir); return this.copy(dir).setMag(mag)`. -/
noncomputable def setDirection (v : vec2) (dir : vec2) : vec2 :=
  setMag (copy v dir) (dot v dir)

/-- `rotateAround(angle, {x, y})` — rotation about the point `(x, y)`:
`let sin = Math.sin(angle), cos = Math.cos(angle);
 let tx = this.x - x, ty = this.y - y;
 return this.set(tx * cos - ty * sin + x, tx * sin + ty * cos + y)`. -/
noncomputable def rotateAround (v : vec2) (angle : ℝ) (o : vec2) : vec2 :=
  let s := Real.sin angle
  let c := Real.cos angle
  let tx := v.x - o.x
  let ty := v.y - o.y
  set v (tx * c - ty * s + o.x) (tx * s + ty * c + o.y)

/-- `norm(norm)` — `Math.pow(Math.pow(this.x, norm) + Math.pow(this.y, norm), 1 / norm)`.
`Math.pow` is modelled by `Real.rpow`; the two agree on every evaluation the
claims use (non-negative bases, or integer exponents, where JS `pow` is the
usual real power). -/
noncomputable def norm (v : vec2) (p : ℝ) : ℝ :=
  (v.x ^ p + v.y ^ p) ^ (1 / p)

/-- Static `angle(v1, v2)` — `Math.acos(v1.dot(v2) / Math.sqrt(v1.magSq() * v2.magSq()))`,
with IEEE NaN modelled as `none`.  When the denominator is `0` (exactly: one
of the vectors is the zero vector) the quotient is `0/0 = NaN` or `±∞`, and
`Math.acos` of either is NaN; when the quotient falls outside `[-1, 1]`,
`Math.acos` is NaN; otherwise it is the real arccosine. -/
noncomputable def angle (v1 v2 : vec2) : Option ℝ :=
  let d := Real.sqrt (magSq v1 * magSq v2)
  if d = 0 then none
  else if 1 < |dot v1 v2 / d| then none
  else some (Real.arccos (dot v1 v2 / d))

/-- Modelled from the spec: `hadamard(other)` is declared in src/vec2.d.ts and
documented in the README but its body is absent from src/vec2.js; spec §4.2:
"component-wise product, in place: `x *= other.x; y *= other.y`". -/
def hadamard (v : vec2) (w : vec2) : vec2 := ⟨v.x * w.x, v.y * w.y⟩

/-- Modelled from the spec: `Math.atan2(y, x)`, used by `toPolar` (spec §4.7).
`Complex.arg ⟨x, y⟩` is exactly the two-argument arctangent `atan2(y, x)`,
including `atan2(0, 0) = 0`. -/
noncomputable def atan2 (y x : ℝ) : ℝ := Complex.arg ⟨x, y⟩

/-- Modelled from the spec: `toPolar()` is declared in src/vec2.d.ts and
documented in the README but its body is absent from src/vec2.js; spec §4.7:
"storing `r = mag()` into `x` and `theta = atan2(y, x)` into `y`". -/
noncomputable def toPolar (v : vec2) : vec2 := ⟨mag v, atan2 v.y v.x⟩

/-- Modelled from the spec: `toCartesian()` is declared in src/vec2.d.ts and
documented in the README but its body is absent from src/vec2.js; spec §4.7:
"reinterprets current `(x, y)` as `(r, theta)` and overwrites with
`(r*cos(theta), r*sin(theta))`". -/
noncomputable def toCartesian (v : vec2) : vec2 :=
  ⟨v.x * Real.cos v.y, v.x * Real.sin v.y⟩

/-- The mathematical p-norm following the spec's words (glossary: "generalized
vector length, `(|x|^p + |y|^p)^(1/p)`"), for comparison with `vec2.norm`. -/
noncomputable def mathematicalPNorm (v : vec2) (p : ℝ) : ℝ :=
  (|v.x| ^ p + |v.y| ^ p) ^ (1 / p)

end vec2

namespace vec2

/-! ### Helper lemmas shared by the claim theorems -/

theorem magSq_nonneg (v : vec2) : 0 ≤ magSq v := by
  unfold magSq
  nlinarith [mul_self_nonneg v.x, mul_self_nonneg v.y]

theorem mag_nonneg (v : vec2) : 0 ≤ mag v := Real.sqrt_nonneg _

theorem mag_eq_zero_iff (v : vec2) : mag v = 0 ↔ v = ⟨0, 0⟩ := by
  unfold mag
  rw [Real.sqrt_eq_zero (magSq_nonneg v)]
  unfold magSq
  constructor
  · intro h
    have hx : v.x = 0 := by nlinarith [mul_self_nonneg v.x, mul_self_nonneg v.y]
    have hy : v.y = 0 := by nlinarith [mul_self_nonneg v.x, mul_self_nonneg v.y]
    exact vec2.ext hx hy
  · intro h
    rw [h]
    ring

theorem mag_scale (v : vec2) (k : ℝ) : mag (scale v k) = |k| * mag v := by
  unfold mag magSq scale
  rw [show v.x * k * (v.x * k) + v.y * k * (v.y * k)
        = (k * k) * (v.x * v.x + v.y * v.y) by ring]
  rw [Real.sqrt_mul (mul_self_nonneg k), Real.sqrt_mul_self_eq_abs]

theorem mag_normalize {v : vec2} (h : mag v ≠ 0) : mag (normalize v) = 1 := by
  have hpos : 0 < mag v := lt_of_le_of_ne (mag_nonneg v) (Ne.symm h)
  unfold normalize
  rw [if_neg h, mag_scale, abs_of_pos (by positivity), one_div, inv_mul_cancel₀ h]

theorem mag_setMag {v : vec2} (h : mag v ≠ 0) (m : ℝ) : mag (setMag v m) = |m| := by
  unfold setMag
  rw [mag_scale, mag_normalize h, mul_one]

theorem mag_three_four : mag ⟨3, 4⟩ = 5 := by
  unfold mag magSq
  rw [show (3 : ℝ) * 3 + 4 * 4 = 5 ^ 2 by norm_num, Real.sqrt_sq (by norm_num)]

theorem mag_zero_vec : mag ⟨0, 0⟩ = 0 := by
  unfold mag magSq
  rw [show (0 : ℝ) * 0 + 0 * 0 = 0 by ring, Real.sqrt_zero]

theorem mag_right : mag ⟨1, 0⟩ = 1 := by
  unfold mag magSq
  rw [show (1 : ℝ) * 1 + 0 * 0 = 1 by ring, Real.sqrt_one]

theorem mag_top : mag ⟨0, 1⟩ = 1 := by
  unfold mag magSq
  rw [show (0 : ℝ) * 0 + 1 * 1 = 1 by ring, Real.sqrt_one]

end vec2

/-- C2: `normalize()` with exactly zero magnitude leaves both components
unchanged (exact equality check, no division occurs); with non-zero magnitude
it scales both components by `1 / mag()` and the resulting magnitude is
exactly 1 (floating-point tolerance sharpened to equality in exact real
arithmetic). -/
theorem C2_normalize (v : vec2) :
    (vec2.mag v = 0 → vec2.normalize v = v) ∧
    (vec2.mag v ≠ 0 →
      vec2.normalize v = vec2.scale v (1 / vec2.mag v) ∧
      vec2.mag (vec2.normalize v) = 1) := by
  constructor
  · intro h
    unfold vec2.normalize
    rw [if_pos h]
  · intro h
    refine ⟨?_, vec2.mag_normalize h⟩
    unfold vec2.normalize
    rw [if_neg h]

/-- Witness for C2 at the vector (3, 4): its magnitude 5 is non-zero, and
normalize scales it by 1/5 to a unit vector. -/
theorem C2_normalize_witness :
    vec2.mag ⟨3, 4⟩ ≠ 0 ∧
    vec2.normalize ⟨3, 4⟩ = vec2.scale ⟨3, 4⟩ (1 / vec2.mag ⟨3, 4⟩) ∧
    vec2.mag (vec2.normalize ⟨3, 4⟩) = 1 := by
  have h : vec2.mag ⟨3, 4⟩ ≠ 0 := by
    rw [vec2.mag_three_four]; norm_num
  exact ⟨h, (C2_normalize ⟨3, 4⟩).2 h⟩

/-- C7: `setMag(t)` on a vector of exactly zero magnitude yields the zero
vector regardless of the target `t` (and the vector already was the zero
vector), silently — the embedding is total, no error is raised. -/
theorem C7_setMag_zero_vector (v : vec2) (t : ℝ) (h : vec2.mag v = 0) :
    vec2.setMag v t = ⟨0, 0⟩ ∧ v = ⟨0, 0⟩ := by
  have hv : v = ⟨0, 0⟩ := (vec2.mag_eq_zero_iff v).1 h
  subst hv
  refine ⟨?_, rfl⟩
  unfold vec2.setMag vec2.normalize
  rw [if_pos h]
  unfold vec2.scale
  simp

/-- Witness for C7 at the zero vector with target 5. -/
theorem C7_setMag_zero_vector_witness :
    vec2.mag ⟨0, 0⟩ = 0 ∧ vec2.setMag ⟨0, 0⟩ 5 = ⟨0, 0⟩ :=
  ⟨vec2.mag_zero_vec, (C7_setMag_zero_vector ⟨0, 0⟩ 5 vec2.mag_zero_vec).1⟩

/-- C9: for a non-zero vector and a negative target `t`, `setMag(t)` scales
the normalized vector by the signed target without clamping: each component
of the result is `t / mag(v)` times the original component (a negative
factor, so the direction is reversed), and the resulting magnitude is
`|t| = -t`. -/
theorem C9_setMag_negative (v : vec2) (t : ℝ) (hm : vec2.mag v ≠ 0) (ht : t < 0) :
    vec2.setMag v t = ⟨t / vec2.mag v * v.x, t / vec2.mag v * v.y⟩ ∧
    vec2.mag (vec2.setMag v t) = |t| ∧
    vec2.mag (vec2.setMag v t) = -t := by
  refine ⟨?_, vec2.mag_setMag hm t, ?_⟩
  · unfold vec2.setMag vec2.normalize
    rw [if_neg hm]
    unfold vec2.scale
    simp only [vec2.mk.injEq]
    constructor <;> ring
  · rw [vec2.mag_setMag hm t, abs_of_neg ht]

/-- Witness for C9 at the vector (3, 4) with target -10: the result is
(-6, -8), of magnitude 10, opposite in direction to (3, 4). -/
theorem C9_setMag_negative_witness :
    vec2.mag ⟨3, 4⟩ ≠ 0 ∧ (-10 : ℝ) < 0 ∧
    vec2.setMag ⟨3, 4⟩ (-10) = ⟨-6, -8⟩ ∧
    vec2.mag (vec2.setMag ⟨3, 4⟩ (-10)) = 10 := by
  have hm : vec2.mag ⟨3, 4⟩ ≠ 0 := by
    rw [vec2.mag_three_four]; norm_num
  have h := C9_setMag_negative ⟨3, 4⟩ (-10) hm (by norm_num)
  refine ⟨hm, by norm_num, ?_, ?_⟩
  · rw [h.1, vec2.mag_three_four]
    norm_num
  · rw [h.2.2]
    norm_num

/-- C3: `setDirection(dir)` computes `m = this.dot(dir)` (the projection
scalar, not the vector's own magnitude), copies `dir` into self and applies
`setMag(m)`; the resulting magnitude is `|dot(original v, dir)|` (for every
`dir`: when `dir` is the zero vector both sides are 0). -/
theorem C3_setDirection (v dir : vec2) :
    vec2.setDirection v dir = vec2.setMag (vec2.copy v dir) (vec2.dot v dir) ∧
    vec2.mag (vec2.setDirection v dir) = |vec2.dot v dir| := by
  refine ⟨rfl, ?_⟩
  by_cases h : vec2.mag dir = 0
  · have hd : dir = ⟨0, 0⟩ := (vec2.mag_eq_zero_iff dir).1 h
    subst hd
    have hdot : vec2.dot v ⟨0, 0⟩ = 0 := by
      unfold vec2.dot; ring
    show vec2.mag (vec2.setMag (vec2.copy v ⟨0, 0⟩) (vec2.dot v ⟨0, 0⟩)) = |vec2.dot v ⟨0, 0⟩|
    have hc : vec2.copy v ⟨0, 0⟩ = ⟨0, 0⟩ := rfl
    rw [hc, hdot]
    unfold vec2.setMag vec2.normalize
    rw [if_pos vec2.mag_zero_vec]
    unfold vec2.scale
    simp [vec2.mag, vec2.magSq]
  · have hc : vec2.copy v dir = dir := rfl
    show vec2.mag (vec2.setMag (vec2.copy v dir) (vec2.dot v dir)) = |vec2.dot v dir|
    rw [hc, vec2.mag_setMag h]

/-- C4: `norm(p)` raises the signed components directly to the power `p`
with no absolute-value correction; it agrees with the mathematical p-norm
`(|x|^p + |y|^p)^(1/p)` when both components are non-negative or `p` is an
even integer, and disagrees at the vector (-1, 0) with `p = 1`. -/
theorem C4_norm_signed_power (v : vec2) (p : ℝ) :
    vec2.norm v p = (v.x ^ p + v.y ^ p) ^ (1 / p) ∧
    (0 ≤ v.x → 0 ≤ v.y → vec2.norm v p = vec2.mathematicalPNorm v p) ∧
    (∀ k : ℕ, Even k → p = (k : ℝ) → vec2.norm v p = vec2.mathematicalPNorm v p) ∧
    vec2.norm ⟨-1, 0⟩ 1 ≠ vec2.mathematicalPNorm ⟨-1, 0⟩ 1 := by
  refine ⟨rfl, ?_, ?_, ?_⟩
  · intro hx hy
    unfold vec2.norm vec2.mathematicalPNorm
    rw [abs_of_nonneg hx, abs_of_nonneg hy]
  · intro k hk hp
    subst hp
    unfold vec2.norm vec2.mathematicalPNorm
    rw [Real.rpow_natCast, Real.rpow_natCast, Real.rpow_natCast, Real.rpow_natCast,
        hk.pow_abs, hk.pow_abs]
  · unfold vec2.norm vec2.mathematicalPNorm
    norm_num [Real.rpow_one]

/-- Witness for C4 at the vector (2, 3) with `p = 1`: both components are
non-negative so the signed-power norm equals the mathematical 1-norm. -/
theorem C4_norm_signed_power_witness :
    (0 : ℝ) ≤ 2 ∧ (0 : ℝ) ≤ 3 ∧
    vec2.norm ⟨2, 3⟩ 1 = vec2.mathematicalPNorm ⟨2, 3⟩ 1 :=
  ⟨by norm_num, by norm_num,
    (C4_norm_signed_power ⟨2, 3⟩ 1).2.1 (by norm_num) (by norm_num)⟩

/-- C6 counterexample: the claim `new Vector2(2,3).norm(1) == 7` is false —
the code computes `(2^1 + 3^1)^(1/1) = 5`, not 7. -/
theorem C6_counterexample : vec2.norm ⟨2, 3⟩ 1 ≠ 7 := by
  unfold vec2.norm
  norm_num [Real.rpow_one]

/-- C6 (amended): the L1 norm of the vector (2, 3) is 5:
`new Vector2(2,3).norm(1) == 5`. -/
theorem C6_norm_L1 : vec2.norm ⟨2, 3⟩ 1 = 5 := by
  unfold vec2.norm
  norm_num [Real.rpow_one]

/-- C10: `rotateAround(a, o)` preserves the distance from the rotation
origin: in exact real arithmetic, the magnitude of `result - o` equals the
magnitude of `v - o`, for every vector, angle, and origin. -/
theorem C10_rotateAround_distance (v : vec2) (a : ℝ) (o : vec2) :
    vec2.mag (vec2.sub (vec2.rotateAround v a o) o) = vec2.mag (vec2.sub v o) := by
  simp only [vec2.rotateAround, vec2.sub, vec2.translate, vec2.set, vec2.mag, vec2.magSq]
  congr 1
  linear_combination
    ((v.x - o.x) * (v.x - o.x) + (v.y - o.y) * (v.y - o.y)) * Real.sin_sq_add_cos_sq a

/-- C5: `hadamard(other)` (modelled from the spec; declared in src/vec2.d.ts
and the README but absent from src/vec2.js) performs the component-wise
product: the result's `x` is `x * other.x` and its `y` is `y * other.y`;
the product with the constant pair (k, k) coincides with the source's
`scale(k)`. -/
theorem C5_hadamard (v w : vec2) :
    (vec2.hadamard v w).x = v.x * w.x ∧
    (vec2.hadamard v w).y = v.y * w.y ∧
    (∀ k : ℝ, vec2.hadamard v ⟨k, k⟩ = vec2.scale v k) :=
  ⟨rfl, rfl, fun _ => rfl⟩

/-- C1: `toPolar()` stores `r = mag()` into `x` and `theta = atan2(y, x)`
into `y`; `toCartesian()` overwrites `(r, theta)` with
`(r*cos(theta), r*sin(theta))`; and for every non-degenerate vector the
round trip `toPolar` then `toCartesian` restores the original exactly
(floating-point tolerance sharpened to equality in exact real arithmetic). -/
theorem C1_polar_roundtrip (v : vec2) (h : v ≠ ⟨0, 0⟩) :
    vec2.toPolar v = ⟨vec2.mag v, vec2.atan2 v.y v.x⟩ ∧
    vec2.toCartesian (vec2.toPolar v) =
      ⟨vec2.mag v * Real.cos (vec2.atan2 v.y v.x),
       vec2.mag v * Real.sin (vec2.atan2 v.y v.x)⟩ ∧
    vec2.toCartesian (vec2.toPolar v) = v := by
  refine ⟨rfl, rfl, ?_⟩
  have hz : (⟨v.x, v.y⟩ : ℂ) ≠ 0 := by
    intro hzero
    apply h
    rw [Complex.ext_iff] at hzero
    simp only [Complex.zero_re, Complex.zero_im] at hzero
    exact vec2.ext hzero.1 hzero.2
  have habs : vec2.mag v = Complex.abs ⟨v.x, v.y⟩ := by
    rw [Complex.abs_apply, Complex.normSq_apply]
    rfl
  have habs_ne : Complex.abs ⟨v.x, v.y⟩ ≠ 0 := Complex.abs.ne_zero hz
  show (⟨vec2.mag v * Real.cos (vec2.atan2 v.y v.x),
        vec2.mag v * Real.sin (vec2.atan2 v.y v.x)⟩ : vec2) = v
  unfold vec2.atan2
  rw [habs, Complex.cos_arg hz, Complex.sin_arg]
  apply vec2.ext
  · show Complex.abs ⟨v.x, v.y⟩ * ((⟨v.x, v.y⟩ : ℂ).re / Complex.abs ⟨v.x, v.y⟩) = v.x
    rw [mul_comm, div_mul_cancel₀ _ habs_ne]
  · show Complex.abs ⟨v.x, v.y⟩ * ((⟨v.x, v.y⟩ : ℂ).im / Complex.abs ⟨v.x, v.y⟩) = v.y
    rw [mul_comm, div_mul_cancel₀ _ habs_ne]

/-- Witness for C1 at the vector (1, 0): it is non-degenerate and the polar
round trip restores it. -/
theorem C1_polar_roundtrip_witness :
    (⟨1, 0⟩ : vec2) ≠ ⟨0, 0⟩ ∧
    vec2.toCartesian (vec2.toPolar ⟨1, 0⟩) = ⟨1, 0⟩ := by
  have hne : (⟨1, 0⟩ : vec2) ≠ ⟨0, 0⟩ := by
    intro hcontra
    have hx := congrArg vec2.x hcontra
    norm_num at hx
  exact ⟨hne, (C1_polar_roundtrip ⟨1, 0⟩ hne).2.2⟩

/-- C8: when either operand of the static `angle(v1, v2)` has zero magnitude
the result is NaN (modelled as `none`), with no error and no guard; when
both are non-zero the result is `acos(dot / sqrt(magSq1 * magSq2))`, an
unsigned angle lying in `[0, π]`. -/
theorem C8_angle (v1 v2 : vec2) :
    (vec2.mag v1 = 0 ∨ vec2.mag v2 = 0 → vec2.angle v1 v2 = none) ∧
    (vec2.mag v1 ≠ 0 → vec2.mag v2 ≠ 0 →
      vec2.angle v1 v2 =
        some (Real.arccos
          (vec2.dot v1 v2 / Real.sqrt (vec2.magSq v1 * vec2.magSq v2))) ∧
      0 ≤ Real.arccos (vec2.dot v1 v2 / Real.sqrt (vec2.magSq v1 * vec2.magSq v2)) ∧
      Real.arccos (vec2.dot v1 v2 / Real.sqrt (vec2.magSq v1 * vec2.magSq v2))
        ≤ Real.pi) := by
  constructor
  · intro h
    have hprod : vec2.magSq v1 * vec2.magSq v2 = 0 := by
      rcases h with h | h
      · rw [(Real.sqrt_eq_zero (vec2.magSq_nonneg v1)).1 h, zero_mul]
      · rw [(Real.sqrt_eq_zero (vec2.magSq_nonneg v2)).1 h, mul_zero]
    simp only [vec2.angle]
    rw [hprod, Real.sqrt_zero]
    simp
  · intro h1 h2
    have hm1 : 0 < vec2.magSq v1 := by
      rcases lt_or_eq_of_le (vec2.magSq_nonneg v1) with hlt | heq
      · exact hlt
      · exfalso
        apply h1
        unfold vec2.mag
        rw [← heq, Real.sqrt_zero]
    have hm2 : 0 < vec2.magSq v2 := by
      rcases lt_or_eq_of_le (vec2.magSq_nonneg v2) with hlt | heq
      · exact hlt
      · exfalso
        apply h2
        unfold vec2.mag
        rw [← heq, Real.sqrt_zero]
    have hdpos : 0 < Real.sqrt (vec2.magSq v1 * vec2.magSq v2) :=
      Real.sqrt_pos.2 (mul_pos hm1 hm2)
    have hcs : (vec2.dot v1 v2) ^ 2 ≤ vec2.magSq v1 * vec2.magSq v2 := by
      unfold vec2.dot vec2.magSq
      nlinarith [sq_nonneg (v1.x * v2.y - v2.x * v1.y)]
    have habs : |vec2.dot v1 v2| ≤ Real.sqrt (vec2.magSq v1 * vec2.magSq v2) := by
      calc |vec2.dot v1 v2|
          = Real.sqrt ((vec2.dot v1 v2) ^ 2) := (Real.sqrt_sq_eq_abs _).symm
        _ ≤ Real.sqrt (vec2.magSq v1 * vec2.magSq v2) := Real.sqrt_le_sqrt hcs
    have hratio :
        ¬ (1 < |vec2.dot v1 v2 / Real.sqrt (vec2.magSq v1 * vec2.magSq v2)|) := by
      rw [not_lt, abs_div, abs_of_pos hdpos, div_le_one hdpos]
      exact habs
    refine ⟨?_, Real.arccos_nonneg _, Real.arccos_le_pi _⟩
    simp only [vec2.angle]
    rw [if_neg (ne_of_gt hdpos), if_neg hratio]

/-- Witness for C8: the zero vector against (1, 0) yields NaN, while the
non-zero pair (1, 0), (0, 1) yields the arccosine formula. -/
theorem C8_angle_witness :
    vec2.mag ⟨0, 0⟩ = 0 ∧
    vec2.angle ⟨0, 0⟩ ⟨1, 0⟩ = none ∧
    vec2.mag ⟨1, 0⟩ ≠ 0 ∧ vec2.mag ⟨0, 1⟩ ≠ 0 ∧
    vec2.angle ⟨1, 0⟩ ⟨0, 1⟩ =
      some (Real.arccos
        (vec2.dot ⟨1, 0⟩ ⟨0, 1⟩ / Real.sqrt (vec2.magSq ⟨1, 0⟩ * vec2.magSq ⟨0, 1⟩))) := by
  have h1 : vec2.mag (⟨1, 0⟩ : vec2) ≠ 0 := by
    rw [vec2.mag_right]; norm_num
  have h2 : vec2.mag (⟨0, 1⟩ : vec2) ≠ 0 := by
    rw [vec2.mag_top]; norm_num
  exact ⟨vec2.mag_zero_vec,
    (C8_angle ⟨0, 0⟩ ⟨1, 0⟩).1 (Or.inl vec2.mag_zero_vec),
    h1, h2, ((C8_angle ⟨1, 0⟩ ⟨0, 1⟩).2 h1 h2).1⟩
